import Mathlib

/-!
Shallow embedding of the completion-state engine of the mini-daily
tracker (src/static/script.js and src/static/index-app.js).

JavaScript objects holding per-task levels are modelled as functions
`String → Option Nat` (`none` = the key is absent / not a number, which is
how the code's `typeof taskLevel === 'number'` guard and JS's
`undefined > 0 = false` behave on the numeric data the API delivers).
The `completed` array of a day record is a `List String`.
-/

namespace MiniDaily

/-- JS truth of `dayData[task] > 0`: an absent key compares false. -/
def jsLevelPos : Option Nat → Bool
  | some v => decide (0 < v)
  | none => false

/-- Numeric value used in star totals: the code only adds values that pass
`typeof taskLevel === 'number'`, so an absent key contributes 0. -/
def levelNum : Option Nat → Nat
  | some v => v
  | none => 0

/-- One day's record as kept in `taskData.daily[date]`: per-task levels plus
the derived `completed` array. -/
structure DayRec where
  levels : String → Option Nat
  completed : List String

/-- `script.js` `setTaskLevel` / `handleActivityStarClick` toggle rule:
`const newLevel = currentLevel === level ? 0 : level;`. An absent current
level compares unequal to the clicked (numeric) level. -/
def toggleLevel (currentLevel : Option Nat) (level : Nat) : Nat :=
  if currentLevel = some level then 0 else level

/-- `setTaskLevel`'s update of the `completed` array: push the task when the
new level is positive and it is absent, splice out its first occurrence when
the new level is 0 and it is present. -/
def updateCompleted (completed : List String) (task : String) (newLevel : Nat) :
    List String :=
  if 0 < newLevel ∧ task ∉ completed then completed ++ [task]
  else if newLevel = 0 ∧ task ∈ completed then completed.erase task
  else completed

/-- Writing `newLevel` into the record and refreshing `completed`, the body
shared by `setTaskLevel`'s success branch and its catch-fallback branch. -/
def applyLevelLocally (rec : DayRec) (task : String) (newLevel : Nat) : DayRec :=
  { levels := fun t => if t = task then some newLevel else rec.levels t,
    completed := updateCompleted rec.completed task newLevel }

/-- Outcome of the remote `POST task/level` call as seen by `setTaskLevel`:
the fetch may throw or return a non-ok status (both land in the catch
block), or return ok with `result.success` true or false. -/
inductive RemoteOutcome where
  | thrown      -- network error, or non-ok HTTP status rethrown as an Error
  | okSuccess   -- response ok, result.success = true
  | okFailure   -- response ok, result.success = false
deriving DecidableEq

/-- `script.js` `setTaskLevel(task, level)` acting on today's record, as a
function of the remote outcome. On `okSuccess` the toggled level is stored
locally; on `okFailure` nothing is touched; in the catch block (`thrown`)
the toggled level is stored locally anyway ("Fallback to local storage
only"). No branch throws or returns an error to the caller. -/
def setTaskLevel (rec : DayRec) (task : String) (level : Nat)
    (outcome : RemoteOutcome) : DayRec :=
  let newLevel := toggleLevel (rec.levels task) level
  match outcome with
  | .okSuccess => applyLevelLocally rec task newLevel
  | .okFailure => rec
  | .thrown => applyLevelLocally rec task newLevel

/-- `index-app.js` `toggleActivity`: flip `activityObj.completed`
optimistically, then flip it back when the response is not ok or the fetch
throws. `remoteOk` is true exactly when `response.ok` held. -/
def toggleActivityCompleted (completed : Bool) (remoteOk : Bool) : Bool :=
  let flipped := !completed
  if remoteOk then flipped else !flipped

/-- `this.tasks.every(task => dayData[task] > 0)`: every catalog task has a
positive level on the given day record. -/
def allTasksCompleted (tasks : List String) (dayData : String → Option Nat) : Bool :=
  tasks.all (fun t => jsLevelPos (dayData t))

/-- The backward walk of `calculateTrueStreak`: `i` is the offset of the day
being examined (1 = yesterday), `fuel` the number of loop iterations still
allowed; stop at a missing day, at a day with an incomplete task, or when
the 365-iteration budget runs out. -/
def streakFrom (tasks : List String) (history : Nat → Option (String → Option Nat)) :
    Nat → Nat → Nat
  | _, 0 => 0
  | i, fuel + 1 =>
    match history i with
    | none => 0
    | some d =>
      if allTasksCompleted tasks d then streakFrom tasks history (i + 1) fuel + 1
      else 0

/-- `script.js` `calculateTrueStreak`: walk backward starting at yesterday
(offset 1) for at most 365 days, counting consecutive days on which every
catalog task has a positive level. `history i` is the record the backend
returned for the day `i` days before today (`none` when absent). -/
def calculateTrueStreak (tasks : List String)
    (history : Nat → Option (String → Option Nat)) : Nat :=
  streakFrom tasks history 1 365

/-- `script.js` `calculateCurrentStreak`: the historical streak plus 1 when
every catalog task has a positive level in today's local record. -/
def calculateCurrentStreak (tasks : List String)
    (history : Nat → Option (String → Option Nat))
    (todayLevels : String → Option Nat) : Nat :=
  let allTasksCompletedToday := tasks.all (fun t => jsLevelPos (todayLevels t))
  let currentStreak := calculateTrueStreak tasks history
  if allTasksCompletedToday then currentStreak + 1 else currentStreak

/-- Colour class a calendar day cell can receive in `renderMonthlyGrid`. -/
inductive DayClass where
  | full        -- the `completed` CSS class
  | partialDay  -- the partial-completion CSS class
  | empty       -- no completion class
deriving DecidableEq

/-- `renderMonthlyGrid`'s classification of a historical day: with no
`dayData` the cell gets no class; otherwise count the catalog tasks whose
level is a number greater than 0 and sum the numeric levels, award
`completed` when the count equals the catalog size, else `partial` when the
star total is positive. -/
def classifyDay (tasks : List String) (dayData : Option (String → Option Nat)) :
    DayClass :=
  match dayData with
  | none => .empty
  | some d =>
    let completedTasks := tasks.countP (fun t => jsLevelPos (d t))
    let totalStars := tasks.foldl (fun acc t => acc + levelNum (d t)) 0
    if completedTasks = tasks.length then .full
    else if 0 < totalStars then .partialDay
    else .empty

/-- Whether one day of history lets the streak walk continue: the loop
breaks on a missing day and on a day failing `allTasksCompleted`. -/
def dayCountsTowardStreak (tasks : List String)
    (dayData : Option (String → Option Nat)) : Bool :=
  match dayData with
  | none => false
  | some d => allTasksCompleted tasks d

/-- A value of `data.status[task]` in `syncWithBackend`: either the new
format, an object carrying a `level` field, or the legacy bare level. -/
inductive RemoteVal where
  | obj (level : Nat)   -- `{ level: …, note: … }`
  | raw (level : Nat)   -- legacy plain number
deriving DecidableEq

/-- The level a `RemoteVal` denotes in either format. -/
def RemoteVal.toLevel : RemoteVal → Nat
  | .obj l => l
  | .raw l => l

/-- One iteration of the `Object.keys(data.status).forEach` loop in
`syncWithBackend`: record the key's level in `dailyData` and push the key
onto `dailyData.completed` when the level is positive. -/
def buildStep (acc : DayRec) (kv : String × RemoteVal) : DayRec :=
  { levels := fun t => if t = kv.1 then some kv.2.toLevel else acc.levels t,
    completed :=
      if 0 < kv.2.toLevel then acc.completed ++ [kv.1] else acc.completed }

/-- The `dailyData` object `syncWithBackend` builds from `data.status`:
every remote key's level, plus a fresh `completed` array listing (in key
order) the remote keys whose level is positive. -/
def buildDailyData (status : List (String × RemoteVal)) : DayRec :=
  status.foldl buildStep { levels := fun _ => none, completed := [] }

/-- `syncWithBackend`'s merge step
`this.taskData.daily[today] = { ...this.taskData.daily[today], ...dailyData }`:
fields of `dailyData` (the remote keys, and the rebuilt `completed` array)
override the local record, all other local fields survive. -/
def syncMerge (localRec : DayRec) (status : List (String × RemoteVal)) : DayRec :=
  let dailyData := buildDailyData status
  { levels := fun t =>
      match dailyData.levels t with
      | some v => some v
      | none => localRec.levels t,
    completed := dailyData.completed }

/-- The invariant claimed for day records: the `completed` array denotes a
set (no duplicate entries) holding exactly the keys whose level is
positive. -/
def completedInvariant (rec : DayRec) : Prop :=
  rec.completed.Nodup ∧
    ∀ t : String, t ∈ rec.completed ↔ jsLevelPos (rec.levels t) = true

/-- The whole `taskData` blob of the tracker: current date, per-date day
records, the stored overall streak, and the achievement ledger. -/
structure TrackerData where
  currentDate : String
  daily : String → Option DayRec
  streakOverall : Nat
  achievements : List String

/-- The hard-coded record `startNewDay` installs for the new day:
`{ reading: 0, exercise: 0, caring: 0, completed: [] }`. -/
def newDayRec : DayRec :=
  { levels := fun t =>
      if t = "reading" ∨ t = "exercise" ∨ t = "caring" then some 0 else none,
    completed := [] }

/-- `script.js` `updateStreaks`: store the recomputed backward-walk streak
in `taskData.streaks.overall`. -/
def updateStreaks (d : TrackerData) (tasks : List String)
    (history : Nat → Option (String → Option Nat)) : TrackerData :=
  { d with streakOverall := calculateTrueStreak tasks history }

/-- `script.js` `startNewDay(today)`: recompute the stored streak, install
the fixed three-task zero record for `today`, and advance `currentDate`.
`tasks`/`history` feed only the streak recomputation; the new record does
not depend on them. -/
def startNewDay (d : TrackerData) (tasks : List String)
    (history : Nat → Option (String → Option Nat)) (today : String) : TrackerData :=
  let d' := updateStreaks d tasks history
  { d' with
    daily := fun k => if k = today then some newDayRec else d'.daily k,
    currentDate := today }

/-- `script.js` `checkNewDay`: roll over to a fresh day exactly when the
stored `currentDate` differs from today's date string. -/
def checkNewDay (d : TrackerData) (tasks : List String)
    (history : Nat → Option (String → Option Nat)) (today : String) : TrackerData :=
  if d.currentDate ≠ today then startNewDay d tasks history today else d

/-- Ids of the catalog `this.achievements` the constructor installs. -/
def achievementIds : List String := ["first_star", "all_tasks", "month_streak"]

/-- The slice of tracker state `checkAchievements` reads: the catalog task
list, today's day record, the stored overall streak, and the fired-set. -/
structure AchState where
  tasks : List String
  today : DayRec
  streakOverall : Nat
  achievements : List String

/-- `checkAchievements`' star total for today:
`const taskLevel = todayData[task] || 0` summed over the catalog tasks
(non-numbers contribute 0). -/
def totalStarsToday (s : AchState) : Nat :=
  s.tasks.foldl (fun acc t => acc + levelNum (s.today.levels t)) 0

/-- `triggerAchievement(id)`: look the id up in the achievement catalog and,
when found and not yet fired, append it to the fired-set and (in the same
step) emit the popup notification — returned here as the list of emitted
ids. -/
def triggerAchievement (s : AchState) (id : String) : AchState × List String :=
  if id ∈ achievementIds ∧ id ∉ s.achievements then
    ({ s with achievements := s.achievements ++ [id] }, [id])
  else (s, [])

/-- One guarded firing attempt inside `checkAchievements`: the predicate
and the `!includes` membership test guard the `triggerAchievement` call. -/
def checkStep (s : AchState) (id : String) (pred : AchState → Bool) :
    AchState × List String :=
  if pred s = true ∧ id ∉ s.achievements then triggerAchievement s id else (s, [])

/-- Predicate of the `first_star` achievement: some star earned today. -/
def firstStarPred (s : AchState) : Bool := decide (0 < totalStarsToday s)

/-- Predicate of the `all_tasks` achievement:
`todayData.completed.length === 3`. -/
def allTasksPred (s : AchState) : Bool := decide (s.today.completed.length = 3)

/-- Predicate of the `month_streak` achievement:
`this.taskData.streaks.overall >= 30`. -/
def monthStreakPred (s : AchState) : Bool := decide (30 ≤ s.streakOverall)

/-- Sequentially attempt a row of `(id, predicate)` firing checks,
threading the (possibly grown) fired-set through and collecting the
emitted notifications. -/
def runChecks : List (String × (AchState → Bool)) → AchState → AchState × List String
  | [], s => (s, [])
  | c :: rest, s =>
    let p := checkStep s c.1 c.2
    let q := runChecks rest p.1
    (q.1, p.2 ++ q.2)

/-- The three `if`-guarded firing checks of `checkAchievements`, in source
order. -/
def achChecks : List (String × (AchState → Bool)) :=
  [("first_star", firstStarPred), ("all_tasks", allTasksPred),
    ("month_streak", monthStreakPred)]

/-- `script.js` `checkAchievements`: attempt the three achievements in
order, threading the (possibly grown) fired-set through, and collect the
emitted notifications. -/
def checkAchievements (s : AchState) : AchState × List String :=
  runChecks achChecks s

/-- A firing predicate that reads only the task catalog, today's record and
the stored streak — never the fired-set. All three predicates of
`checkAchievements` are of this shape. -/
def FramePred (pred : AchState → Bool) : Prop :=
  ∀ s s' : AchState, s'.tasks = s.tasks → s'.today = s.today →
    s'.streakOverall = s.streakOverall → pred s' = pred s

/-- `n` successive `checkAchievements` evaluations with no other state
change in between, accumulating every emitted notification. -/
def iterateCheck : Nat → AchState → AchState × List String
  | 0, s => (s, [])
  | n + 1, s =>
    let p := checkAchievements s
    let q := iterateCheck n p.1
    (q.1, p.2 ++ q.2)

/-! Concrete sample data used to evaluate the theorems below on explicit
inputs. -/

/-- A day record with `reading` at level 0 and nothing else set. -/
def recReading0 : DayRec :=
  { levels := fun t => if t = "reading" then some 0 else none, completed := [] }

/-- A day record with `reading` completed at level 2. -/
def recReading2 : DayRec :=
  { levels := fun t => if t = "reading" then some 2 else none,
    completed := ["reading"] }

/-- A remote status mentioning only `exercise` (legacy bare-level format). -/
def statusExerciseRaw : List (String × RemoteVal) := [("exercise", RemoteVal.raw 1)]

/-- A remote status mentioning only `reading`, at a positive level. -/
def statusReadingRaw2 : List (String × RemoteVal) := [("reading", RemoteVal.raw 2)]

/-- A remote status mentioning only `exercise` (object format). -/
def statusExerciseObj : List (String × RemoteVal) := [("exercise", RemoteVal.obj 1)]

/-- The three-task demo catalog. -/
def demoTasks : List String := ["reading", "exercise", "caring"]

/-- A history with exactly the two days before today fully completed. -/
def demoHistory : Nat → Option (String → Option Nat) := fun i =>
  if i = 1 ∨ i = 2 then some (fun _ => some 1) else none

/-- An achievement-engine state with one star today, a 31-day stored streak,
and `first_star` already in the ledger. -/
def demoAchState : AchState :=
  { tasks := demoTasks,
    today := recReading2,
    streakOverall := 31,
    achievements := ["first_star"] }

/-- A tracker blob whose stored date is behind today. -/
def demoTracker : TrackerData :=
  { currentDate := "2024-01-01",
    daily := fun d => if d = "2024-01-01" then some recReading2 else none,
    streakOverall := 0,
    achievements := [] }

/-! Theorems. -/

/-- C1, counterexample: the claim's consequence "toggling L twice in a row
returns the level to 0" fails when the level already equals L — with the
level at 2, clicking 2 twice clears it and then sets it back to 2. -/
theorem c1_counterexample :
    toggleLevel (some (toggleLevel (some 2) 2)) 2 = 2 ∧ (2 : Nat) ≠ 0 := by
  decide

/-- C1 (amended): the toggle is the pure function
`newLevel = if current = L then 0 else L` of the current level; toggling L
twice returns the level to 0 whenever the starting level differed from L,
while from a level already at L the pair of toggles clears and then restores
L; toggling L and then a different level L2 always leaves the level at L2. -/
theorem c1_toggle_amended (c : Option Nat) (L L2 : Nat) :
    (toggleLevel c L = if c = some L then 0 else L) ∧
    (c ≠ some L → toggleLevel (some (toggleLevel c L)) L = 0) ∧
    (c = some L → toggleLevel (some (toggleLevel c L)) L = L) ∧
    (L ≠ L2 → toggleLevel (some (toggleLevel c L)) L2 = L2) := by
  refine ⟨rfl, ?_, ?_, ?_⟩
  · intro h
    simp [toggleLevel, h]
  · intro h
    rcases eq_or_ne L 0 with h0 | h0 <;> simp [toggleLevel, h, h0]
  · intro h
    by_cases hc : c = some L
    · rcases eq_or_ne L2 0 with h0 | h0 <;> simp [toggleLevel, hc, h0, Ne.symm h]
    · simp only [toggleLevel, if_neg hc, Option.some.injEq]
      rw [if_neg h]

/-- C1 witness: from a cleared `reading` level, clicking level 2 twice
returns the level to 0. -/
theorem c1_toggle_witness : toggleLevel (some (toggleLevel (some 0) 2)) 2 = 0 :=
  (c1_toggle_amended (some 0) 2 3).2.1 (by decide)

/-- C2, counterexample: with `reading` locally at level 0, a
`setTaskLevel("reading", 3)` call whose remote write throws (network error
or non-ok status) leaves the local level at 3, not at the pre-change 0. -/
theorem c2_counterexample :
    recReading0.levels "reading" = some 0 ∧
    (setTaskLevel recReading0 "reading" 3 .thrown).levels "reading" = some 3 ∧
    (setTaskLevel recReading0 "reading" 3 .thrown).levels "reading"
      ≠ recReading0.levels "reading" := by
  refine ⟨rfl, ?_, ?_⟩ <;>
    simp [setTaskLevel, applyLevelLocally, toggleLevel, recReading0]

/-- C2 (amended): only a well-formed non-success response
(`result.success = false`) leaves the local record unchanged; a thrown
fetch / non-ok status stores the toggled level locally anyway (the
catch-block fallback), and no error is signalled to the caller in either
case. In `index-app.js`'s `toggleActivity`, by contrast, a failed write
does revert the optimistic flip to the pre-change value. -/
theorem c2_rollback_amended (rec : DayRec) (task : String) (level : Nat)
    (c : Bool) :
    setTaskLevel rec task level .okFailure = rec ∧
    (setTaskLevel rec task level .thrown).levels task
      = some (toggleLevel (rec.levels task) level) ∧
    toggleActivityCompleted c false = c := by
  refine ⟨rfl, ?_, ?_⟩
  · simp [setTaskLevel, applyLevelLocally]
  · simp [toggleActivityCompleted]

/-- C8, counterexample: `setTaskLevel` accepts the out-of-range level 5
without any `ValidationError` — on a successful remote write the local
record now stores level 5, and even on a thrown write the catch-fallback
stores it; the record is not left unchanged. -/
theorem c8_counterexample :
    (setTaskLevel recReading0 "reading" 5 .okSuccess).levels "reading" = some 5 ∧
    (setTaskLevel recReading0 "reading" 5 .thrown).levels "reading" = some 5 ∧
    recReading0.levels "reading" = some 0 := by
  refine ⟨?_, ?_, rfl⟩ <;>
    simp [setTaskLevel, applyLevelLocally, toggleLevel, recReading0]

/-- C8 (amended): the client performs no range validation at all — for every
level, in or out of `[0,3]`, `setTaskLevel` forwards the toggled value and
stores it locally on a successful or thrown remote write; only a remote
`success: false` response leaves the day record unchanged, and no
`ValidationError` exists anywhere in the flow. -/
theorem c8_validation_amended (rec : DayRec) (task : String) (level : Nat) :
    (setTaskLevel rec task level .okSuccess).levels task
      = some (toggleLevel (rec.levels task) level) ∧
    (setTaskLevel rec task level .thrown).levels task
      = some (toggleLevel (rec.levels task) level) ∧
    setTaskLevel rec task level .okFailure = rec := by
  refine ⟨?_, ?_, rfl⟩ <;> simp [setTaskLevel, applyLevelLocally]

/-- The backward walk counts exactly `m` when the `m` days starting at
offset `i` all qualify and the walk then stops, either because day `i + m`
fails to qualify or because the iteration budget is exhausted there. -/
theorem streakFrom_eq (tasks : List String)
    (history : Nat → Option (String → Option Nat)) (m : Nat) :
    ∀ i fuel, m ≤ fuel →
    (∀ j, i ≤ j → j < i + m → dayCountsTowardStreak tasks (history j) = true) →
    (dayCountsTowardStreak tasks (history (i + m)) = false ∨ m = fuel) →
    streakFrom tasks history i fuel = m := by
  induction m with
  | zero =>
    intro i fuel _ _ hstop
    rcases hstop with hstop | hstop
    · cases fuel with
      | zero => rfl
      | succ f =>
        simp only [streakFrom]
        cases hh : history i with
        | none => rfl
        | some d =>
          rw [Nat.add_zero, hh] at hstop
          simp only [dayCountsTowardStreak] at hstop
          simp [hstop]
    · rw [← hstop]
      rfl
  | succ m ih =>
    intro i fuel hfuel hcomp hstop
    obtain ⟨f, rfl⟩ : ∃ f, fuel = f + 1 :=
      ⟨fuel - 1, by omega⟩
    have hi : dayCountsTowardStreak tasks (history i) = true :=
      hcomp i le_rfl (by omega)
    cases hh : history i with
    | none => rw [hh] at hi; simp [dayCountsTowardStreak] at hi
    | some d =>
      rw [hh] at hi
      simp only [dayCountsTowardStreak] at hi
      simp only [streakFrom, hh, hi, if_true]
      have : streakFrom tasks history (i + 1) f = m := by
        refine ih (i + 1) f (by omega) ?_ ?_
        · intro j hj1 hj2
          exact hcomp j (by omega) (by omega)
        · rcases hstop with hstop | hstop
          · left
            have : i + 1 + m = i + (m + 1) := by omega
            rw [this]
            exact hstop
          · right
            omega
      omega

/-- C3: when the `k` days immediately before today are each fully completed
(every catalog task at a positive level) and the day before them is missing
from history or has an incomplete task, the streak computation — which walks
backward from yesterday for at most 365 days — returns exactly `k`; a
single incomplete task or missing day stops the count. -/
theorem c3_streak (tasks : List String)
    (history : Nat → Option (String → Option Nat)) (k : Nat) (hk : k ≤ 365)
    (hcomp : ∀ j, 1 ≤ j → j ≤ k →
      ∃ d, history j = some d ∧ allTasksCompleted tasks d = true)
    (hstop : history (k + 1) = none ∨
      ∃ d, history (k + 1) = some d ∧ allTasksCompleted tasks d = false) :
    calculateTrueStreak tasks history = k := by
  unfold calculateTrueStreak
  refine streakFrom_eq tasks history k 1 365 hk ?_ ?_
  · intro j hj1 hj2
    obtain ⟨d, hd, hall⟩ := hcomp j hj1 (by omega)
    rw [hd]
    simpa [dayCountsTowardStreak] using hall
  · left
    have h1k : 1 + k = k + 1 := by omega
    rw [h1k]
    rcases hstop with hnone | ⟨d, hd, hall⟩
    · rw [hnone]
      rfl
    · rw [hd]
      simpa [dayCountsTowardStreak] using hall

/-- C3 witness: with the three demo tasks and a history in which exactly
yesterday and the day before are fully completed, the computed streak is 2. -/
theorem c3_streak_witness : calculateTrueStreak demoTasks demoHistory = 2 := by
  refine c3_streak demoTasks demoHistory 2 (by omega) ?_ ?_
  · intro j hj1 hj2
    refine ⟨fun _ => some 1, ?_, ?_⟩
    · interval_cases j <;> rfl
    · decide
  · left
    rfl

/-- C5: for every catalog and every day, the calendar grid awards the
`completed` (full) class exactly when that day's record would let the
streak walk continue — and the per-day test the streak walk actually
applies is `dayCountsTowardStreak`, as the second conjunct shows by
unrolling one step of the walk. -/
theorem c5_calendar_streak_agree (tasks : List String)
    (dayData : Option (String → Option Nat)) :
    (classifyDay tasks dayData = .full ↔
      dayCountsTowardStreak tasks dayData = true) ∧
    (∀ (history : Nat → Option (String → Option Nat)) (i fuel : Nat),
      streakFrom tasks history i (fuel + 1) =
        if dayCountsTowardStreak tasks (history i) = true
        then streakFrom tasks history (i + 1) fuel + 1
        else 0) := by
  constructor
  · cases dayData with
    | none => simp [classifyDay, dayCountsTowardStreak]
    | some d =>
      simp only [classifyDay, dayCountsTowardStreak]
      constructor
      · intro h
        by_cases hc : tasks.countP (fun t => jsLevelPos (d t)) = tasks.length
        · rw [List.countP_eq_length] at hc
          simpa [allTasksCompleted, List.all_eq_true] using hc
        · rw [if_neg hc] at h
          split at h <;> simp_all
      · intro h
        have hc : tasks.countP (fun t => jsLevelPos (d t)) = tasks.length := by
          rw [List.countP_eq_length]
          simpa [allTasksCompleted, List.all_eq_true] using h
        simp [hc]
  · intro history i fuel
    cases hh : history i with
    | none => simp [streakFrom, hh, dayCountsTowardStreak]
    | some d =>
      simp only [streakFrom, hh, dayCountsTowardStreak]

/-- C7: the displayed "current streak" equals the backward-walk streak plus
1 exactly when today's own record has every catalog task at a positive
level; otherwise it equals the backward-walk streak unchanged. What
`updateStreaks` persists in `streaks.overall` is the bare backward-walk
value, never the displayed `+1`. -/
theorem c7_current_streak (tasks : List String)
    (history : Nat → Option (String → Option Nat))
    (todayLevels : String → Option Nat) (d : TrackerData) :
    (calculateCurrentStreak tasks history todayLevels
        = calculateTrueStreak tasks history + 1
      ↔ allTasksCompleted tasks todayLevels = true) ∧
    (allTasksCompleted tasks todayLevels = false →
      calculateCurrentStreak tasks history todayLevels
        = calculateTrueStreak tasks history) ∧
    (updateStreaks d tasks history).streakOverall
      = calculateTrueStreak tasks history := by
  refine ⟨?_, ?_, rfl⟩
  · unfold calculateCurrentStreak allTasksCompleted
    cases hb : tasks.all (fun t => jsLevelPos (todayLevels t)) with
    | false =>
      simp only [hb, Bool.false_eq_true, if_false, iff_false]
      omega
    | true => simp [hb]
  · intro h
    unfold calculateCurrentStreak allTasksCompleted at *
    simp [h]

/-- C7 witness: with the single-task catalog `["reading"]` completed today
and an empty history, the displayed streak is the backward-walk streak plus
one. -/
theorem c7_current_streak_witness :
    calculateCurrentStreak ["reading"] (fun _ => none) (fun _ => some 1)
      = calculateTrueStreak ["reading"] (fun _ => none) + 1 :=
  (c7_current_streak ["reading"] (fun _ => none) (fun _ => some 1)
    demoTracker).1.mpr (by decide)

/-- A key is absent from an association list exactly when its lookup comes
back empty. -/
theorem lookup_eq_none_iff (l : List (String × RemoteVal)) (t : String) :
    l.lookup t = none ↔ t ∉ l.map Prod.fst := by
  induction l with
  | nil => simp
  | cons kv rest ih =>
    obtain ⟨k, w⟩ := kv
    by_cases h : t = k
    · subst h
      simp [List.lookup]
    · have hbeq : (t == k) = false := by simp [h]
      simp [List.lookup, hbeq, ih, h]

/-- Folding the `forEach` step over keys not containing `t` leaves the
accumulated level of `t` alone. -/
theorem foldl_buildStep_levels_of_notMem (l : List (String × RemoteVal))
    (t : String) : ∀ acc : DayRec, t ∉ l.map Prod.fst →
    (l.foldl buildStep acc).levels t = acc.levels t := by
  induction l with
  | nil => intro acc _; rfl
  | cons kv rest ih =>
    intro acc h
    simp only [List.map_cons, List.mem_cons, not_or] at h
    rw [List.foldl_cons, ih _ h.2]
    simp [buildStep, h.1]

/-- With distinct keys, folding the `forEach` step records exactly the
looked-up remote level for a present key. -/
theorem foldl_buildStep_levels_of_lookup (l : List (String × RemoteVal))
    (t : String) (v : RemoteVal) :
    ∀ acc : DayRec, (l.map Prod.fst).Nodup → l.lookup t = some v →
    (l.foldl buildStep acc).levels t = some v.toLevel := by
  induction l with
  | nil => intro acc _ h; simp [List.lookup] at h
  | cons kv rest ih =>
    intro acc hnodup hlookup
    obtain ⟨k, w⟩ := kv
    simp only [List.map_cons, List.nodup_cons] at hnodup
    by_cases h : t = k
    · subst h
      have hv : w = v := by simpa [List.lookup] using hlookup
      subst hv
      rw [List.foldl_cons, foldl_buildStep_levels_of_notMem rest t _ hnodup.1]
      simp [buildStep]
    · have hbeq : (t == k) = false := by simp [h]
      have hrest : rest.lookup t = some v := by
        simpa [List.lookup, hbeq] using hlookup
      rw [List.foldl_cons]
      exact ih _ hnodup.2 hrest

/-- The `completed` array the `forEach` fold accumulates is the ordered
list of keys whose remote level is positive, appended to the accumulator. -/
theorem foldl_buildStep_completed (l : List (String × RemoteVal)) :
    ∀ acc : DayRec, (l.foldl buildStep acc).completed
      = acc.completed
        ++ (l.filter (fun kv => decide (0 < kv.2.toLevel))).map Prod.fst := by
  induction l with
  | nil => intro acc; simp
  | cons kv rest ih =>
    intro acc
    rw [List.foldl_cons, ih]
    by_cases h : 0 < kv.2.toLevel
    · simp [buildStep, h, List.filter_cons]
    · simp [buildStep, h, List.filter_cons]

/-- C9: in the startup reconcile, for every task key the merged record
stores the remote status level when the key is present remotely (in either
the object or the legacy format), and keeps the prior local level when the
key is absent from the remote status — the remote need not enumerate every
configured task. -/
theorem c9_reconcile_merge (localRec : DayRec)
    (status : List (String × RemoteVal)) (t : String)
    (hnodup : (status.map Prod.fst).Nodup) :
    (∀ v, status.lookup t = some v →
      (syncMerge localRec status).levels t = some v.toLevel) ∧
    (status.lookup t = none →
      (syncMerge localRec status).levels t = localRec.levels t) := by
  constructor
  · intro v hv
    have hlv := foldl_buildStep_levels_of_lookup status t v
      { levels := fun _ => none, completed := [] } hnodup hv
    simp only [syncMerge, buildDailyData] at *
    rw [hlv]
  · intro hnone
    have hmem := (lookup_eq_none_iff status t).mp hnone
    have hlv := foldl_buildStep_levels_of_notMem status t
      { levels := fun _ => none, completed := [] } hmem
    simp only [syncMerge, buildDailyData] at *
    rw [hlv]

/-- C9 witness: merging a status that only mentions `exercise` overwrites
`exercise` with the remote level and keeps the local `reading` level. -/
theorem c9_reconcile_merge_witness :
    (syncMerge recReading2 statusExerciseObj).levels "exercise" = some 1 ∧
    (syncMerge recReading2 statusExerciseObj).levels "reading" = some 2 := by
  constructor
  · exact (c9_reconcile_merge recReading2 statusExerciseObj "exercise"
      (by decide)).1 (RemoteVal.obj 1) (by decide)
  · have h := (c9_reconcile_merge recReading2 statusExerciseObj "reading"
      (by decide)).2 (by decide)
    rw [h]
    rfl

/-- C4, counterexample: the completed-set invariant survives neither every
operation — after a reconcile whose remote status omits a locally completed
task, the merged record keeps `reading` at level 2 yet drops it from the
rebuilt `completed` array, so `completed` is no longer the set of keys with
positive level. -/
theorem c4_counterexample :
    completedInvariant recReading2 ∧
    jsLevelPos ((syncMerge recReading2 statusExerciseRaw).levels "reading")
      = true ∧
    "reading" ∉ (syncMerge recReading2 statusExerciseRaw).completed ∧
    ¬ completedInvariant (syncMerge recReading2 statusExerciseRaw) := by
  have hlev :
      (syncMerge recReading2 statusExerciseRaw).levels "reading" = some 2 := by
    rfl
  have hcomp :
      (syncMerge recReading2 statusExerciseRaw).completed = ["exercise"] := by
    rfl
  refine ⟨⟨by decide, ?_⟩, ?_, ?_, ?_⟩
  · intro t
    by_cases h : t = "reading" <;> simp [recReading2, h, jsLevelPos]
  · rw [hlev]
    rfl
  · rw [hcomp]
    decide
  · intro hinv
    have hmem := (hinv.2 "reading").mpr (by rw [hlev]; rfl)
    rw [hcomp] at hmem
    exact absurd hmem (by decide)

/-- `updateCompleted` keeps `completed` duplicate-free. -/
theorem updateCompleted_nodup (c : List String) (task : String) (n : Nat)
    (hnd : c.Nodup) : (updateCompleted c task n).Nodup := by
  unfold updateCompleted
  split_ifs with h1 h2
  · simp [List.nodup_append, hnd, h1.2]
  · exact hnd.erase task
  · exact hnd

/-- After `updateCompleted`, the edited task is a member exactly when its
new level is positive. -/
theorem updateCompleted_mem_self (c : List String) (task : String) (n : Nat)
    (hnd : c.Nodup) : task ∈ updateCompleted c task n ↔ 0 < n := by
  unfold updateCompleted
  split_ifs with h1 h2
  · simp [h1.1]
  · simp [hnd.not_mem_erase, h2.1]
  · push_neg at h1 h2
    rcases Nat.eq_zero_or_pos n with hz | hp
    · subst hz
      simp only [Nat.lt_irrefl, iff_false]
      intro hmem
      exact absurd hmem (h2 rfl)
    · simp [h1 hp, hp]

/-- `updateCompleted` leaves the membership of every other key alone. -/
theorem updateCompleted_mem_other (c : List String) (task t : String) (n : Nat)
    (hne : t ≠ task) : t ∈ updateCompleted c task n ↔ t ∈ c := by
  unfold updateCompleted
  split_ifs with h1 h2
  · simp [hne]
  · exact List.mem_erase_of_ne hne
  · exact Iff.rfl

/-- `setTaskLevel`'s local write keeps `completed` in sync with the levels:
the task is pushed exactly when its new level is positive and spliced out
exactly when it is zero, and no other key's membership changes. -/
theorem applyLevelLocally_invariant (rec : DayRec) (task : String)
    (newLevel : Nat) (hinv : completedInvariant rec) :
    completedInvariant (applyLevelLocally rec task newLevel) := by
  obtain ⟨hnd, hiff⟩ := hinv
  constructor
  · exact updateCompleted_nodup rec.completed task newLevel hnd
  · intro t
    show t ∈ updateCompleted rec.completed task newLevel ↔
      jsLevelPos (if t = task then some newLevel else rec.levels t) = true
    by_cases ht : t = task
    · subst ht
      rw [if_pos rfl, updateCompleted_mem_self rec.completed t newLevel hnd]
      simp [jsLevelPos]
    · rw [if_neg ht, updateCompleted_mem_other rec.completed task t newLevel ht]
      exact hiff t

/-- With distinct status keys, a key present with value `v` appears in the
rebuilt `completed` array exactly when `v`'s level is positive. -/
theorem mem_filter_map_fst (status : List (String × RemoteVal)) (t : String)
    (v : RemoteVal) :
    (status.map Prod.fst).Nodup → status.lookup t = some v →
    (t ∈ (status.filter (fun kv => decide (0 < kv.2.toLevel))).map Prod.fst
      ↔ 0 < v.toLevel) := by
  induction status with
  | nil => intro _ h; simp [List.lookup] at h
  | cons kv rest ih =>
    intro hnodup hlookup
    obtain ⟨k, w⟩ := kv
    simp only [List.map_cons, List.nodup_cons] at hnodup
    by_cases h : t = k
    · subst h
      have hv : w = v := by simpa [List.lookup] using hlookup
      subst hv
      rw [List.filter_cons]
      by_cases hp : 0 < w.toLevel
      · simp [hp]
      · simp only [decide_eq_true_eq, hp, if_false, iff_false]
        intro hmem
        have hsub : (rest.filter (fun kv => decide (0 < kv.2.toLevel))).map
            Prod.fst ⊆ rest.map Prod.fst :=
          fun a ha => (List.Sublist.map Prod.fst (List.filter_sublist rest)).mem ha
        exact absurd (hsub hmem) hnodup.1
    · have hbeq : (t == k) = false := by simp [h]
      have hrest : rest.lookup t = some v := by
        simpa [List.lookup, hbeq] using hlookup
      rw [List.filter_cons]
      by_cases hp : 0 < w.toLevel
      · simp only [decide_eq_true_eq, hp, if_true, List.map_cons,
          List.mem_cons]
        rw [ih hnodup.2 hrest]
        constructor
        · rintro (hk | hm)
          · exact absurd hk h
          · exact hm
        · exact Or.inr
      · simp only [decide_eq_true_eq, hp, if_false]
        exact ih hnodup.2 hrest

/-- C4 (amended): the completed-set invariant does hold after initial
creation and after every `setTaskLevel` outcome, and it holds after a
reconcile provided the remote status enumerates every key whose local
level is positive; a status omitting such a key breaks it (see the
counterexample). -/
theorem c4_invariant_amended (rec : DayRec) (task : String) (level : Nat)
    (outcome : RemoteOutcome) (status : List (String × RemoteVal))
    (hinv : completedInvariant rec)
    (hnodup : (status.map Prod.fst).Nodup)
    (hcover : ∀ t, jsLevelPos (rec.levels t) = true → t ∈ status.map Prod.fst) :
    completedInvariant newDayRec ∧
    completedInvariant (setTaskLevel rec task level outcome) ∧
    completedInvariant (syncMerge rec status) := by
  refine ⟨⟨by decide, ?_⟩, ?_, ?_⟩
  · intro t
    simp only [newDayRec, List.not_mem_nil, false_iff]
    split_ifs <;> simp [jsLevelPos]
  · cases outcome with
    | okFailure => exact hinv
    | okSuccess => exact applyLevelLocally_invariant rec task _ hinv
    | thrown => exact applyLevelLocally_invariant rec task _ hinv
  · have hcompleted : (syncMerge rec status).completed
        = (status.filter (fun kv => decide (0 < kv.2.toLevel))).map Prod.fst := by
      simp only [syncMerge, buildDailyData]
      rw [foldl_buildStep_completed]
      rfl
    constructor
    · rw [hcompleted]
      exact hnodup.sublist (List.Sublist.map Prod.fst (List.filter_sublist status))
    · intro t
      rw [hcompleted]
      by_cases hmem : t ∈ status.map Prod.fst
      · have hlook : (status.lookup t).isSome := by
          rcases hl : status.lookup t with _ | v
          · exact absurd ((lookup_eq_none_iff status t).mp hl) (by simp [hmem])
          · rfl
        obtain ⟨v, hv⟩ := Option.isSome_iff_exists.mp hlook
        have hlev := (c9_reconcile_merge rec status t hnodup).1 v hv
        rw [hlev, mem_filter_map_fst status t v hnodup hv]
        simp [jsLevelPos]
      · have hlev := (c9_reconcile_merge rec status t hnodup).2
          ((lookup_eq_none_iff status t).mpr hmem)
        rw [hlev]
        have hsub : (status.filter (fun kv => decide (0 < kv.2.toLevel))).map
            Prod.fst ⊆ status.map Prod.fst :=
          fun a ha => (List.Sublist.map Prod.fst (List.filter_sublist status)).mem ha
        constructor
        · intro hmem2
          exact absurd (hsub hmem2) hmem
        · intro hpos
          exact absurd (hcover t hpos) hmem

/-- One firing check changes nothing but the fired-set, to which it appends
exactly its notifications. -/
theorem checkStep_frame (s : AchState) (id : String) (pred : AchState → Bool) :
    (checkStep s id pred).1.tasks = s.tasks ∧
    (checkStep s id pred).1.today = s.today ∧
    (checkStep s id pred).1.streakOverall = s.streakOverall ∧
    (checkStep s id pred).1.achievements
      = s.achievements ++ (checkStep s id pred).2 := by
  unfold checkStep triggerAchievement
  split_ifs <;> simp

/-- One firing check emits nothing, or emits exactly its own id while that
id was not yet in the fired-set. -/
theorem checkStep_notes (s : AchState) (id : String) (pred : AchState → Bool) :
    (checkStep s id pred).2 = [] ∨
    ((checkStep s id pred).2 = [id] ∧ id ∉ s.achievements) := by
  unfold checkStep triggerAchievement
  split_ifs with h1 h2
  · exact Or.inr ⟨rfl, h2.2⟩
  · exact Or.inl rfl
  · exact Or.inl rfl

/-- A firing check whose predicate is false, or whose id has already been
fired, leaves the state alone and emits nothing. -/
theorem checkStep_no_fire (s : AchState) (id : String) (pred : AchState → Bool)
    (h : pred s = false ∨ id ∈ s.achievements) :
    checkStep s id pred = (s, []) := by
  unfold checkStep
  rw [if_neg]
  rintro ⟨hp, hmem⟩
  rcases h with h | h
  · rw [h] at hp
    exact Bool.false_ne_true hp
  · exact hmem h

/-- A firing check for a catalogued, still-unfired id with a true
predicate emits exactly that id. -/
theorem checkStep_fire (s : AchState) (id : String) (pred : AchState → Bool)
    (hid : id ∈ achievementIds) (hp : pred s = true)
    (hmem : id ∉ s.achievements) :
    (checkStep s id pred).2 = [id] := by
  unfold checkStep triggerAchievement
  rw [if_pos ⟨hp, hmem⟩, if_pos ⟨hid, hmem⟩]

/-- Running a row of checks changes nothing but the fired-set, to which it
appends exactly the emitted notifications, in order. -/
theorem runChecks_frame (checks : List (String × (AchState → Bool))) :
    ∀ s : AchState,
    (runChecks checks s).1.tasks = s.tasks ∧
    (runChecks checks s).1.today = s.today ∧
    (runChecks checks s).1.streakOverall = s.streakOverall ∧
    (runChecks checks s).1.achievements
      = s.achievements ++ (runChecks checks s).2 := by
  induction checks with
  | nil => intro s; simp [runChecks]
  | cons c rest ih =>
    intro s
    obtain ⟨f1, f2, f3, f4⟩ := checkStep_frame s c.1 c.2
    obtain ⟨g1, g2, g3, g4⟩ := ih (checkStep s c.1 c.2).1
    simp only [runChecks]
    refine ⟨g1.trans f1, g2.trans f2, g3.trans f3, ?_⟩
    rw [g4, f4, List.append_assoc]

/-- Every notification a row of checks emits names an id from the row that
was not yet fired on entry and is in the fired-set on exit. -/
theorem runChecks_notes (checks : List (String × (AchState → Bool))) :
    ∀ s : AchState, ∀ id ∈ (runChecks checks s).2,
    id ∈ checks.map Prod.fst ∧ id ∉ s.achievements ∧
      id ∈ (runChecks checks s).1.achievements := by
  induction checks with
  | nil => intro s id hid; simp [runChecks] at hid
  | cons c rest ih =>
    intro s id hid
    simp only [runChecks, List.mem_append] at hid
    have hfinal : (runChecks (c :: rest) s).1.achievements
        = s.achievements ++ (runChecks (c :: rest) s).2 :=
      (runChecks_frame (c :: rest) s).2.2.2
    have hmemfinal : id ∈ (runChecks (c :: rest) s).1.achievements := by
      rw [hfinal]
      refine List.mem_append_right _ ?_
      simpa [runChecks, List.mem_append] using hid
    rcases hid with hid | hid
    · rcases checkStep_notes s c.1 c.2 with hn | ⟨hn, hnm⟩
      · rw [hn] at hid
        exact absurd hid (List.not_mem_nil id)
      · rw [hn] at hid
        rcases List.mem_singleton.mp hid with rfl
        exact ⟨by simp, hnm, hmemfinal⟩
    · obtain ⟨h1, h2, h3⟩ := ih (checkStep s c.1 c.2).1 id hid
      have hach : (checkStep s c.1 c.2).1.achievements
          = s.achievements ++ (checkStep s c.1 c.2).2 :=
        (checkStep_frame s c.1 c.2).2.2.2
      refine ⟨by simp [h1], ?_, hmemfinal⟩
      intro hmem
      exact h2 (hach ▸ List.mem_append_left _ hmem)

/-- With distinct ids in the row, one run's notifications contain no
duplicates. -/
theorem runChecks_nodup (checks : List (String × (AchState → Bool)))
    (hnd : (checks.map Prod.fst).Nodup) :
    ∀ s : AchState, (runChecks checks s).2.Nodup := by
  induction checks with
  | nil => intro s; simp [runChecks]
  | cons c rest ih =>
    intro s
    simp only [List.map_cons, List.nodup_cons] at hnd
    simp only [runChecks]
    rcases checkStep_notes s c.1 c.2 with hn | ⟨hn, _⟩
    · rw [hn]
      simpa using ih hnd.2 (checkStep s c.1 c.2).1
    · rw [hn]
      refine List.Nodup.cons ?_ (by simpa using ih hnd.2 (checkStep s c.1 c.2).1)
      intro hmem
      have := (runChecks_notes rest (checkStep s c.1 c.2).1 c.1 hmem).1
      exact hnd.1 this

/-- A firing check for an id missing from the achievement catalog does
nothing: `triggerAchievement`'s `find` comes back empty. -/
theorem checkStep_skip (s : AchState) (id : String) (pred : AchState → Bool)
    (hid : id ∉ achievementIds) : checkStep s id pred = (s, []) := by
  unfold checkStep triggerAchievement
  split_ifs with h1 h2
  · exact absurd h2.1 hid
  · rfl
  · rfl

/-- The first-star predicate reads only the frame fields. -/
theorem firstStarPred_frame : FramePred firstStarPred := by
  intro s s' h1 h2 h3
  unfold firstStarPred totalStarsToday
  rw [h1, h2]

/-- The all-tasks predicate reads only the frame fields. -/
theorem allTasksPred_frame : FramePred allTasksPred := by
  intro s s' h1 h2 h3
  unfold allTasksPred
  rw [h2]

/-- The month-streak predicate reads only the frame fields. -/
theorem monthStreakPred_frame : FramePred monthStreakPred := by
  intro s s' h1 h2 h3
  unfold monthStreakPred
  rw [h3]

/-- Every predicate in the achievement table reads only the frame fields. -/
theorem achChecks_frame : ∀ c ∈ achChecks, FramePred c.2 := by
  intro c hc
  simp only [achChecks, List.mem_cons, List.not_mem_nil, or_false] at hc
  rcases hc with rfl | rfl | rfl
  · exact firstStarPred_frame
  · exact allTasksPred_frame
  · exact monthStreakPred_frame

/-- Re-running a row of frame-field checks on the state the first run
produced fires nothing and changes nothing. -/
theorem runChecks_fixpoint (checks : List (String × (AchState → Bool))) :
    (∀ c ∈ checks, FramePred c.2) →
    ∀ s : AchState,
    runChecks checks ((runChecks checks s).1) = ((runChecks checks s).1, []) := by
  induction checks with
  | nil => intro _ s; rfl
  | cons c rest ih =>
    intro hframe s
    have hframe_c : FramePred c.2 := hframe c (List.mem_cons_self c rest)
    have hframe_rest : ∀ d ∈ rest, FramePred d.2 := fun d hd =>
      hframe d (List.mem_cons_of_mem c hd)
    have hcons : ∀ x : AchState, runChecks (c :: rest) x
        = ((runChecks rest (checkStep x c.1 c.2).1).1,
           (checkStep x c.1 c.2).2 ++ (runChecks rest (checkStep x c.1 c.2).1).2) := by
      intro x
      rfl
    obtain ⟨e1, e2, e3, e4⟩ := runChecks_frame (c :: rest) s
    have hs1 : (runChecks (c :: rest) s).1
        = (runChecks rest (checkStep s c.1 c.2).1).1 := by
      rw [hcons]
    have hstep : checkStep (runChecks rest (checkStep s c.1 c.2).1).1 c.1 c.2
        = ((runChecks rest (checkStep s c.1 c.2).1).1, []) := by
      by_cases hid : c.1 ∈ achievementIds
      · by_cases hpred : c.2 s = true
        · by_cases hmem : c.1 ∈ s.achievements
          · refine checkStep_no_fire _ _ _ (Or.inr ?_)
            have hach := e4
            rw [hs1] at hach
            rw [hach]
            exact List.mem_append_left _ hmem
          · have hfired : (checkStep s c.1 c.2).2 = [c.1] :=
              checkStep_fire s c.1 c.2 hid hpred hmem
            refine checkStep_no_fire _ _ _ (Or.inr ?_)
            have hach := e4
            rw [hs1, hcons s] at hach
            rw [hach, hfired]
            exact List.mem_append_right _ (List.mem_append_left _ (by simp))
        · have hfalse : c.2 s = false := by
            revert hpred
            cases c.2 s <;> simp
          refine checkStep_no_fire _ _ _ (Or.inl ?_)
          have hq : c.2 (runChecks rest (checkStep s c.1 c.2).1).1 = c.2 s := by
            refine hframe_c s _ ?_ ?_ ?_
            · rw [← hs1]; exact e1
            · rw [← hs1]; exact e2
            · rw [← hs1]; exact e3
          rw [hq]
          exact hfalse
      · exact checkStep_skip _ _ _ hid
    have hq' : runChecks rest (runChecks rest (checkStep s c.1 c.2).1).1
        = ((runChecks rest (checkStep s c.1 c.2).1).1, []) :=
      ih hframe_rest (checkStep s c.1 c.2).1
    rw [hs1, hcons _, hstep, hq']
    simp

/-- A state that one evaluation leaves unchanged stays unchanged and silent
over any number of further evaluations. -/
theorem iterateCheck_of_fixpoint (n : Nat) (x : AchState)
    (hx : checkAchievements x = (x, [])) : iterateCheck n x = (x, []) := by
  induction n with
  | zero => rfl
  | succ n ih => simp [iterateCheck, hx, ih]

/-- Any positive number of evaluations in an unchanged state is equivalent
to the first evaluation alone. -/
theorem iterateCheck_succ (n : Nat) (s : AchState) :
    iterateCheck (n + 1) s = ((checkAchievements s).1, (checkAchievements s).2) := by
  have hfix : checkAchievements ((checkAchievements s).1)
      = ((checkAchievements s).1, []) := by
    unfold checkAchievements
    exact runChecks_fixpoint achChecks achChecks_frame s
  simp only [iterateCheck]
  rw [iterateCheck_of_fixpoint n _ hfix]
  simp

/-- C6: evaluating the achievement checks any number of times in an
unchanged state fires each achievement at most once in total (the combined
notification list has no duplicates), never re-fires an achievement already
in the ledger, and every emitted achievement id is in the ledger once the
evaluation returns. -/
theorem c6_achievements_once (s : AchState) (n : Nat) :
    ((iterateCheck n s).2).Nodup ∧
    (∀ id ∈ s.achievements, id ∉ (iterateCheck n s).2) ∧
    (∀ id ∈ (iterateCheck n s).2, id ∈ (iterateCheck n s).1.achievements) := by
  cases n with
  | zero =>
    refine ⟨List.nodup_nil, ?_, ?_⟩ <;> intro id hid <;>
      simp only [iterateCheck] at *
    · exact List.not_mem_nil id
    · exact absurd hid (List.not_mem_nil id)
  | succ n =>
    rw [iterateCheck_succ]
    unfold checkAchievements
    refine ⟨runChecks_nodup achChecks (by decide) s, ?_, ?_⟩
    · intro id hid hmem
      exact (runChecks_notes achChecks s id hmem).2.1 hid
    · intro id hid
      exact (runChecks_notes achChecks s id hid).2.2

/-- C6 witness: in a state whose ledger already holds `first_star`, three
evaluations never emit `first_star` again. -/
theorem c6_achievements_once_witness :
    "first_star" ∈ demoAchState.achievements ∧
    "first_star" ∉ (iterateCheck 3 demoAchState).2 :=
  ⟨by decide,
    (c6_achievements_once demoAchState 3).2.1 "first_star" (by decide)⟩

/-- C10: when the stored date differs from today, the rollover installs
for today exactly the fixed record `{reading: 0, exercise: 0, caring: 0,
completed: []}` — whatever tasks the active user's catalog configures —
sets `currentDate` to today, and leaves the records of every other date
untouched. -/
theorem c10_rollover (d : TrackerData) (tasks : List String)
    (history : Nat → Option (String → Option Nat)) (today : String)
    (h : d.currentDate ≠ today) :
    (checkNewDay d tasks history today).currentDate = today ∧
    (checkNewDay d tasks history today).daily today = some newDayRec ∧
    (∀ k, k ≠ today → (checkNewDay d tasks history today).daily k = d.daily k) ∧
    (∀ t, (newDayRec.levels t).isSome ↔
      (t = "reading" ∨ t = "exercise" ∨ t = "caring")) ∧
    newDayRec.levels "reading" = some 0 ∧
    newDayRec.levels "exercise" = some 0 ∧
    newDayRec.levels "caring" = some 0 ∧
    newDayRec.completed = [] := by
  unfold checkNewDay
  rw [if_pos h]
  unfold startNewDay updateStreaks
  refine ⟨rfl, by simp, ?_, ?_, rfl, rfl, rfl, rfl⟩
  · intro k hk
    simp [hk]
  · intro t
    unfold newDayRec
    dsimp only
    split_ifs with ht <;> simp [ht]

/-- C10 witness: rolling the demo tracker over from 2024-01-01 to
2024-01-02 creates the fixed zero record for the new day and keeps the old
day's record. -/
theorem c10_rollover_witness :
    (checkNewDay demoTracker demoTasks demoHistory "2024-01-02").currentDate
      = "2024-01-02" ∧
    (checkNewDay demoTracker demoTasks demoHistory "2024-01-02").daily
      "2024-01-02" = some newDayRec ∧
    (checkNewDay demoTracker demoTasks demoHistory "2024-01-02").daily
      "2024-01-01" = demoTracker.daily "2024-01-01" := by
  have h := c10_rollover demoTracker demoTasks demoHistory "2024-01-02"
    (by decide)
  exact ⟨h.1, h.2.1, h.2.2.1 "2024-01-01" (by decide)⟩

/-- C4 witness: from a record with `reading` at level 2, toggling
`exercise` keeps the invariant, and so does a reconcile whose status lists
the one locally positive key. -/
theorem c4_invariant_witness :
    completedInvariant (setTaskLevel recReading2 "exercise" 1 .okSuccess) ∧
    completedInvariant (syncMerge recReading2 statusReadingRaw2) := by
  have h := c4_invariant_amended recReading2 "exercise" 1 .okSuccess
    statusReadingRaw2 ?_ (by decide) ?_
  · exact ⟨h.2.1, h.2.2⟩
  · refine ⟨by decide, ?_⟩
    intro t
    by_cases ht : t = "reading" <;> simp [recReading2, ht, jsLevelPos]
  · intro t hpos
    by_cases ht : t = "reading"
    · simp [statusReadingRaw2, ht]
    · simp [recReading2, ht, jsLevelPos] at hpos

end MiniDaily
